import Mathlib

/-!
Verification of the power4-web Connect-Four variant server (Go).
The definitions below are a shallow embedding of the game engine in
`main.go` (the bonus variant): the board model, gravity-aware drop
resolution, win/draw evaluation, the single-ply heuristic opponent,
the local/online move handlers, and the lobby chat operations.
Grids are row-major lists of cells; Go's `int` row/column indices that
may go negative during line scanning are embedded as `Int`.
-/

namespace Power4

/-- Cell contents: `cellEmpty = 0`, `cellR = 'R'`, `cellY = 'Y'`,
`cellBlk = 'X'` (immobile block). -/
inductive Cell where
  | empty
  | R
  | Y
  | blk
deriving DecidableEq, Repr

/-- A board is a row-major grid, `Grid [][]byte` in the source. -/
abbrev Board := List (List Cell)

/-- Number of rows, `len(grid)`. -/
def height (grid : Board) : Nat := List.length grid

/-- Number of columns, `len(grid[0])`. -/
def width (grid : Board) : Nat := (List.headD grid []).length

/-- Read a cell at natural-number coordinates; out-of-range reads return
the (never reachable in guarded code) `blk` default. -/
def cellAt (grid : Board) (r c : Nat) : Cell :=
  ((List.getD grid r []).getD c Cell.blk)

/-- Read a cell at `Int` coordinates (used by the line scanner, which is
always guarded by the bounds check `in`). -/
def cellAtI (grid : Board) (r c : Int) : Cell :=
  if 0 ≤ r ∧ 0 ≤ c then cellAt grid r.toNat c.toNat else Cell.blk

/-- The bounds check `in(rr, cc)` from `winningLine`. -/
def InB (grid : Board) (r c : Int) : Prop :=
  0 ≤ r ∧ r < (height grid : Int) ∧ 0 ≤ c ∧ c < (width grid : Int)

instance (grid : Board) (r c : Int) : Decidable (InB grid r c) := by
  unfold InB; infer_instance

/-- Write a cell: `grid[r][c] = v`. -/
def setCell (grid : Board) (r c : Nat) (v : Cell) : Board :=
  List.set grid r ((List.getD grid r []).set c v)

/-- Downward scan of `dropRow`: first empty row starting at `n - 1` and
going toward row `0`. -/
def dropRowDown (grid : Board) (col : Nat) : Nat → Option Nat
  | 0 => none
  | n + 1 =>
    if cellAt grid n col = Cell.empty then some n else dropRowDown grid col n

/-- Upward scan of `dropRow`: first empty row starting at `r` with `fuel`
rows left to inspect. -/
def dropRowUpAux (grid : Board) (col : Nat) : Nat → Nat → Option Nat
  | 0, _ => none
  | fuel + 1, r =>
    if cellAt grid r col = Cell.empty then some r
    else dropRowUpAux grid col fuel (r + 1)

/-- `dropRow(grid, col, gravityUp)`: landing cell for a piece dropped in
`col`.  Nothing blocks the path; the piece lands on the empty cell
farthest along the gravity direction (lowest empty row for normal
gravity, highest empty row when gravity is inverted).  `none` mirrors the
Go sentinel `-1`. -/
def dropRow (grid : Board) (col : Nat) (gravityUp : Bool) : Option Nat :=
  let h := height grid
  if h = 0 ∨ width grid ≤ col then none
  else if !gravityUp then dropRowDown grid col h
  else dropRowUpAux grid col h 0

/-- Contiguous scan of `winningLine`: starting at `(rr, cc)` and stepping
by `(dr, dc)`, collect cells while in bounds and holding `p`.  The Go
`for` loop terminates because the walk leaves the grid; `fuel` is set by
the caller to `height + width`, which the termination lemmas below show
is never exhausted from an in-bounds start. -/
def runDir (grid : Board) (p : Cell) (dr dc : Int) : Nat → Int → Int → List (Int × Int)
  | 0, _, _ => []
  | fuel + 1, rr, cc =>
    if InB grid rr cc ∧ cellAtI grid rr cc = p then
      (rr, cc) :: runDir grid p dr dc fuel (rr + dr) (cc + dc)
    else []

/-- The per-direction line of `winningLine`: cells found scanning
backward (prepended, hence reversed), the just-placed cell, then cells
found scanning forward. -/
def lineDir (grid : Board) (r c : Int) (p : Cell) (d : Int × Int) : List (Int × Int) :=
  let fuel := height grid + width grid
  (runDir grid p (-d.1) (-d.2) fuel (r - d.1) (c - d.2)).reverse
    ++ (r, c) :: runDir grid p d.1 d.2 fuel (r + d.1) (c + d.2)

/-- The four axis directions scanned by `winningLine`, in source order:
horizontal, vertical, the two diagonals. -/
def dirs : List (Int × Int) := [(0, 1), (1, 0), (1, 1), (1, -1)]

/-- Loop of `winningLine` over the direction list: return the first
per-direction line of length at least 4. -/
def winningLineAux (grid : Board) (r c : Int) (p : Cell) : List (Int × Int) → List (Int × Int)
  | [] => []
  | d :: rest =>
    let line := lineDir grid r c p d
    if 4 ≤ line.length then line else winningLineAux grid r c p rest

/-- `winningLine(grid, r, c, p)`: the first axis line through the
just-placed cell `(r, c)` whose contiguous same-player run reaches
length 4; `[]` mirrors the Go `nil`. -/
def winningLine (grid : Board) (r c : Int) (p : Cell) : List (Int × Int) :=
  winningLineAux grid r c p dirs

/-- `isDraw(grid)`: every cell of row 0 is non-empty. -/
def isDraw (grid : Board) : Bool :=
  (List.range (width grid)).all fun c => decide (cellAt grid 0 c ≠ Cell.empty)

/-- The win-highlight matrix `Winning [][]bool`. -/
abbrev WinGrid := List (List Bool)

/-- Set one highlight flag, `g.Winning[r][c] = true`. -/
def setB (w : WinGrid) (q : Int × Int) : WinGrid :=
  if 0 ≤ q.1 ∧ 0 ≤ q.2 then
    List.set w q.1.toNat ((List.getD w q.1.toNat []).set q.2.toNat true)
  else w

/-- Read one highlight flag; out-of-range reads give `false`. -/
def getB (w : WinGrid) (q : Int × Int) : Bool :=
  if 0 ≤ q.1 ∧ 0 ≤ q.2 then (List.getD w q.1.toNat []).getD q.2.toNat false
  else false

/-- The game state (struct `Game`).  Fields only used for rendering or
bookkeeping outside the engine (`CreatedAt`, `LobbyCode`, `ThisIsRed`)
are omitted. -/
structure Game where
  rows : Nat
  cols : Nat
  grid : Board
  winning : WinGrid
  current : Cell
  player1 : String
  player2 : String
  scoresR : Nat
  scoresY : Nat
  message : String
  gameOver : Bool
  turns : Nat
  gravityUp : Bool
  mode : String
  difficulty : String
  lastPlayed : Cell
deriving DecidableEq, Repr

/-- `checkResult(g, r, c, p)`: detect a win through the just-placed cell
or a draw; on a win, highlight the first four cells of the line and
credit the scorer.  Returns the Go boolean paired with the updated
state. -/
def checkResult (g : Game) (r c : Int) (p : Cell) : Bool × Game :=
  let line := winningLine g.grid r c p
  if 4 ≤ line.length then
    let g := { g with
      winning := (line.take 4).foldl setB g.winning
      gameOver := true
      message := "" }
    let g :=
      if p = Cell.R then { g with scoresR := g.scoresR + 1 }
      else { g with scoresY := g.scoresY + 1 }
    (true, g)
  else if isDraw g.grid then
    (true, { g with gameOver := true, message := "🤝 Égalité !" })
  else (false, g)

/-- Turn alternation in `handlePlay` / `handleOnlinePlay`. -/
def switchPlayer (p : Cell) : Cell :=
  if p = Cell.R then Cell.Y else Cell.R

/-- One successfully applied placement of `handlePlay` (also the shape of
the AI's immediate reply in the same handler): bounds check, drop, place
the current player's piece, count the turn, evaluate win/draw — and only
when the move is not terminal, switch the player and flip gravity on
every fifth turn.  `none` is the handler's redirect without touching the
state. -/
def playMove (g : Game) (c : Nat) : Option Game :=
  if g.gameOver then none
  else if g.cols ≤ c then none
  else
    match dropRow g.grid c g.gravityUp with
    | none => none
    | some row =>
      if cellAt g.grid row c ≠ Cell.empty then none
      else
        let g := { g with
          grid := setCell g.grid row c g.current
          lastPlayed := g.current
          turns := g.turns + 1 }
        match checkResult g (row : Int) (c : Int) g.current with
        | (true, g) => some g
        | (false, g) =>
          let g := { g with current := switchPlayer g.current }
          let g :=
            if g.turns % 5 = 0 then { g with gravityUp := !g.gravityUp, message := "" }
            else g
          some g

/-- `strings.TrimSpace`, over the character list (Go trims Unicode
whitespace; the handlers only compare against ASCII tokens). -/
def trimStr (s : String) : String :=
  String.mk (((s.toList.dropWhile Char.isWhitespace).reverse.dropWhile
    Char.isWhitespace).reverse)

/-- `strings.ToUpper`, over the character list. -/
def upperStr (s : String) : String :=
  String.mk (s.toList.map Char.toUpper)

/-- The state transition of `handleOnlinePlay` on an existing lobby:
reject (leaving the game untouched, `false`) when it is not the
requesting side's turn, the game is over, or the column has no landing
cell; otherwise place, count the turn, evaluate win/draw, and on a
non-terminal move switch the player and flip gravity on every fifth
turn. -/
def onlinePlay (g : Game) (side : String) (c : Nat) : Game × Bool :=
  let side := upperStr (trimStr side)
  let expect := if side = "Y" then Cell.Y else Cell.R
  if g.current ≠ expect ∨ g.gameOver then (g, false)
  else
    match dropRow g.grid c g.gravityUp with
    | none => (g, false)
    | some row =>
      if cellAt g.grid row c ≠ Cell.empty then (g, false)
      else
        let g := { g with
          grid := setCell g.grid row c g.current
          turns := g.turns + 1 }
        match checkResult g (row : Int) (c : Int) g.current with
        | (true, g) => (g, true)
        | (false, g) =>
          let g := { g with current := switchPlayer g.current }
          let g :=
            if g.turns % 5 = 0 then { g with gravityUp := !g.gravityUp, message := "" }
            else g
          (g, true)

/-- `configByDifficulty(d)`: board rows, columns and obstacle count per
difficulty; anything unknown falls back to easy. -/
def configByDifficulty (d : String) : Nat × Nat × Nat :=
  match d with
  | "hard" => (7, 8, 7)
  | "normal" => (6, 9, 5)
  | _ => (6, 7, 3)

/-- Inner window walk of `evalBoard`'s `countK`: starting at `(rr, cc)`
and stepping by `(dr, dc)` for `k` cells, report whether the window is
`clear` (fully in bounds, no block) and how many of its cells hold `p`.
An out-of-bounds or blocked cell aborts the walk (`break`). -/
def countKWindow (grid : Board) (p : Cell) : Nat → Int → Int → Int → Int → Bool × Nat
  | 0, _, _, _, _ => (true, 0)
  | k + 1, rr, cc, dr, dc =>
    if ¬ InB grid rr cc ∨ cellAtI grid rr cc = Cell.blk then (false, 0)
    else
      let rest := countKWindow grid p k (rr + dr) (cc + dc) dr dc
      (rest.1, rest.2 + if cellAtI grid rr cc = p then 1 else 0)

/-- `countK(p, k)` inside `evalBoard`: the number of length-`k` windows
over all cells and the four directions that are clear and hold exactly
`k` pieces of `p`. -/
def countK (grid : Board) (p : Cell) (k : Nat) : Nat :=
  ((List.range (height grid)).map fun r =>
    ((List.range (width grid)).map fun c =>
      (dirs.map fun d =>
        let w := countKWindow grid p k (r : Int) (c : Int) d.1 d.2
        if w.1 = true ∧ w.2 = k then 1 else 0).sum).sum).sum

/-- `evalBoard(g, me)`: weighted open-run count for `me` minus the same
for the opponent. -/
def evalBoard (g : Game) (me : Cell) : Int :=
  let op := if me = Cell.R then Cell.Y else Cell.R
  (50 : Int) * countK g.grid me 3 + 10 * countK g.grid me 2
    - 50 * countK g.grid op 3 - 10 * countK g.grid op 2

/-- Loop body of `chooseAIMove` over the candidate columns, carrying the
best column and score so far.  A candidate that wins immediately is
returned on the spot; otherwise its score is the static evaluation after
the hypothetical placement, plus 5000 when after that placement some red
reply is still an immediate red win (`needBlock`), minus the distance to
the central column. -/
def chooseAIAux (g : Game) : List Nat → Int → Int → Int
  | [], bestCol, _ => bestCol
  | c :: rest, bestCol, bestScore =>
    match dropRow g.grid c g.gravityUp with
    | none => chooseAIAux g rest bestCol bestScore
    | some r =>
      if cellAt g.grid r c ≠ Cell.empty then chooseAIAux g rest bestCol bestScore
      else
        let grid1 := setCell g.grid r c Cell.Y
        if 4 ≤ (winningLine grid1 (r : Int) (c : Int) Cell.Y).length then (c : Int)
        else
          let needBlock := (List.range g.cols).any fun cc =>
            match dropRow grid1 cc g.gravityUp with
            | none => false
            | some rr =>
              if cellAt grid1 rr cc ≠ Cell.empty then false
              else decide (4 ≤ (winningLine (setCell grid1 rr cc Cell.R)
                (rr : Int) (cc : Int) Cell.R).length)
          let score := evalBoard { g with grid := grid1 } Cell.Y
            + (if needBlock then 5000 else 0)
            - ((c : Int) - (g.cols / 2 : Nat)).natAbs
          if bestScore < score then chooseAIAux g rest (c : Int) score
          else chooseAIAux g rest bestCol bestScore

/-- `chooseAIMove(g)`: scan the columns left to right; `-1` when no
column is playable. -/
def chooseAIMove (g : Game) : Int :=
  chooseAIAux g (List.range g.cols) (-1) (-1000000)

/-- A chat message (timestamp omitted). -/
structure ChatMessage where
  id : Int
  side : String
  name : String
  text : String
deriving DecidableEq, Repr

/-- An online lobby (timestamps omitted). -/
structure Lobby where
  game : Game
  hasRed : Bool
  hasYellow : Bool
  chat : List ChatMessage
  nextChatID : Int
deriving DecidableEq

/-- The state transition of `handleChatPost` on an existing lobby:
validate the side and the trimmed text, truncate the text to 240
characters, default the name, append a message with the next per-lobby
id, and cap the log at the 200 most recent messages.  A rejected post
returns the lobby untouched and no message. -/
def postChat (lb : Lobby) (side name text : String) : Lobby × Option ChatMessage :=
  let side := upperStr (trimStr side)
  let name := trimStr name
  let text := trimStr text
  if (side ≠ "R" ∧ side ≠ "Y") ∨ text = "" then (lb, none)
  else
    let text := if 240 < text.length then String.mk (text.toList.take 240) else text
    let name := if name = "" then "Joueur" else name
    let nid := lb.nextChatID + 1
    let msg : ChatMessage := { id := nid, side := side, name := name, text := text }
    let chat := lb.chat ++ [msg]
    let chat := if 200 < chat.length then chat.drop (chat.length - 200) else chat
    ({ lb with chat := chat, nextChatID := nid }, some msg)

/-- The message collection of `handleChatFeed`: the stored messages with
id greater than `since`, in stored order; an absent lobby yields the
empty list. -/
def fetchChatSince (lb : Option Lobby) (since : Int) : List ChatMessage :=
  match lb with
  | none => []
  | some lb => lb.chat.filter fun m => decide (since < m.id)

/-! Specification-side predicates, stated independently of the loop
structure of the code, used to express the claims. -/

/-- A cell the line scanner accepts: in bounds and holding `p`. -/
def Good (grid : Board) (p : Cell) (q : Int × Int) : Prop :=
  InB grid q.1 q.2 ∧ cellAtI grid q.1 q.2 = p

instance (grid : Board) (p : Cell) (q : Int × Int) : Decidable (Good grid p q) := by
  unfold Good; infer_instance

/-- `L` is a maximal contiguous run of `p`-cells along axis direction
`d`: consecutive cells step by `d`, every cell is in bounds and holds
`p`, and the cells just beyond both ends do not. -/
def IsRun (grid : Board) (p : Cell) (d : Int × Int) (L : List (Int × Int)) : Prop :=
  L.Chain' (fun q q' => q' = (q.1 + d.1, q.2 + d.2)) ∧
  (∀ q ∈ L, Good grid p q) ∧
  (∀ q, L.head? = some q → ¬ Good grid p (q.1 - d.1, q.2 - d.2)) ∧
  (∀ q, L.getLast? = some q → ¬ Good grid p (q.1 + d.1, q.2 + d.2))

/-- Four consecutive cells along axis `d`, all in bounds and holding
`p`, with `(r, c)` as the `k`-th of the four. -/
def FourThrough (grid : Board) (p : Cell) (r c : Int) (d : Int × Int) : Prop :=
  ∃ k : Nat, k < 4 ∧ ∀ j : Nat, j < 4 →
    Good grid p (r + ((j : Int) - (k : Int)) * d.1, c + ((j : Int) - (k : Int)) * d.2)

instance (grid : Board) (p : Cell) (r c : Int) (d : Int × Int) :
    Decidable (FourThrough grid p r c d) := by
  unfold FourThrough; infer_instance

/-- Every flag of the highlight matrix is unset. -/
def AllFalse (w : WinGrid) : Prop :=
  ∀ i < w.length, ∀ j < (List.getD w i []).length, (List.getD w i []).getD j false = false

instance (w : WinGrid) : Decidable (AllFalse w) := by
  unfold AllFalse; infer_instance

/-- The grid is rectangular: every row has the width of row 0. -/
def Rect (grid : Board) : Prop :=
  ∀ i < height grid, (List.getD grid i []).length = width grid

instance (grid : Board) : Decidable (Rect grid) := by
  unfold Rect; infer_instance

/-- The highlight matrix has the same shape as the grid. -/
def WinDims (g : Game) : Prop :=
  g.winning.length = height g.grid ∧
  ∀ i < height g.grid, (List.getD g.winning i []).length = (List.getD g.grid i []).length

instance (g : Game) : Decidable (WinDims g) := by
  unfold WinDims; infer_instance

/-- One applied move: a local/AI placement (`handlePlay`) or an online
placement (`handleOnlinePlay`). -/
inductive Step : Game → Game → Prop
  | play (g g' : Game) (c : Nat) (h : playMove g c = some g') : Step g g'
  | online (g g' : Game) (side : String) (c : Nat) (h : onlinePlay g side c = (g', true)) :
      Step g g'

/-- Reachability by any sequence of applied moves. -/
def Reach : Game → Game → Prop := Relation.ReflTransGen Step

/-- The possible results of `newGame(rows, cols, blocks)`: an
all-empty grid of the given shape in which `placeBlocks` has turned at
most `blocks` cells into obstacles, a cleared highlight matrix, red to
move, counters at zero and gravity pointing down. -/
def IsNewGame (g : Game) (rows cols blocks : Nat) : Prop :=
  g.rows = rows ∧ g.cols = cols ∧
  g.grid.length = rows ∧ (∀ row ∈ g.grid, row.length = cols) ∧
  (∀ r, r < rows → ∀ c, c < cols →
    (cellAt g.grid r c = Cell.empty ∨ cellAt g.grid r c = Cell.blk)) ∧
  (g.grid.map fun row => row.count Cell.blk).sum ≤ blocks ∧
  g.winning = List.replicate rows (List.replicate cols false) ∧
  g.current = Cell.R ∧ g.scoresR = 0 ∧ g.scoresY = 0 ∧ g.message = "" ∧
  g.gameOver = false ∧ g.turns = 0 ∧ g.gravityUp = false

instance (g : Game) (rows cols blocks : Nat) :
    Decidable (IsNewGame g rows cols blocks) := by
  unfold IsNewGame; infer_instance

/-- The chat-log invariant maintained by `handleChatPost`: ids strictly
increase along the log, and every stored id is positive and at most the
id counter. -/
def ChatInv (lb : Lobby) : Prop :=
  0 ≤ lb.nextChatID ∧
  lb.chat.Pairwise (fun a b => a.id < b.id) ∧
  ∀ m ∈ lb.chat, 0 < m.id ∧ m.id ≤ lb.nextChatID

instance (lb : Lobby) : Decidable (ChatInv lb) := by
  unfold ChatInv; infer_instance

/-! Concrete states used to evaluate the code on explicit inputs. -/

/-- A bare game state over `grid` with a cleared highlight matrix;
used by the concrete examples below. -/
def mkGame (grid : Board) (current : Cell) (turns : Nat) (gravityUp : Bool) : Game :=
  { rows := height grid, cols := width grid, grid := grid,
    winning := List.replicate (height grid) (List.replicate (width grid) false),
    current := current, player1 := "Rouge", player2 := "Jaune",
    scoresR := 0, scoresY := 0, message := "", gameOver := false,
    turns := turns, gravityUp := gravityUp, mode := "local",
    difficulty := "easy", lastPlayed := Cell.empty }

/-- 4×4 mid-game board: red threatens to win at column 3 (bottom row),
yellow to move. -/
def gridBlock : Board :=
  [[Cell.empty, Cell.empty, Cell.empty, Cell.empty],
   [Cell.empty, Cell.empty, Cell.empty, Cell.empty],
   [Cell.Y, Cell.Y, Cell.empty, Cell.empty],
   [Cell.R, Cell.R, Cell.R, Cell.empty]]

/-- The game around `gridBlock`, yellow (the computer side) to move. -/
def gameBlock : Game := mkGame gridBlock Cell.Y 5 false

/-- 6×7 board with a horizontal red run of exactly 4 and a vertical red
run of 5, both through `(2, 3)`. -/
def gridTwoRuns : Board :=
  [[Cell.empty, Cell.empty, Cell.empty, Cell.empty, Cell.empty, Cell.empty, Cell.empty],
   [Cell.empty, Cell.empty, Cell.empty, Cell.R, Cell.empty, Cell.empty, Cell.empty],
   [Cell.empty, Cell.empty, Cell.empty, Cell.R, Cell.R, Cell.R, Cell.R],
   [Cell.empty, Cell.empty, Cell.empty, Cell.R, Cell.empty, Cell.empty, Cell.empty],
   [Cell.empty, Cell.empty, Cell.empty, Cell.R, Cell.empty, Cell.empty, Cell.empty],
   [Cell.empty, Cell.empty, Cell.empty, Cell.R, Cell.empty, Cell.empty, Cell.empty]]

/-- 4×4 board with a vertical red run in column 0, last piece at
`(3, 0)`. -/
def gridVert : Board :=
  [[Cell.R, Cell.empty, Cell.empty, Cell.empty],
   [Cell.R, Cell.empty, Cell.empty, Cell.empty],
   [Cell.R, Cell.empty, Cell.empty, Cell.empty],
   [Cell.R, Cell.empty, Cell.empty, Cell.empty]]

/-- The game around `gridVert`. -/
def gameVert : Game := mkGame gridVert Cell.R 6 false

/-- 6×7 easy-difficulty starting grid with the three random obstacles
fallen on the first three cells of row 0 — one possible outcome of
`placeBlocks`. -/
def gridStart : Board :=
  [[Cell.blk, Cell.blk, Cell.blk, Cell.empty, Cell.empty, Cell.empty, Cell.empty],
   [Cell.empty, Cell.empty, Cell.empty, Cell.empty, Cell.empty, Cell.empty, Cell.empty],
   [Cell.empty, Cell.empty, Cell.empty, Cell.empty, Cell.empty, Cell.empty, Cell.empty],
   [Cell.empty, Cell.empty, Cell.empty, Cell.empty, Cell.empty, Cell.empty, Cell.empty],
   [Cell.empty, Cell.empty, Cell.empty, Cell.empty, Cell.empty, Cell.empty, Cell.empty],
   [Cell.empty, Cell.empty, Cell.empty, Cell.empty, Cell.empty, Cell.empty, Cell.empty]]

/-- The fresh game on `gridStart`. -/
def gameStart : Game := mkGame gridStart Cell.R 0 false

/-- Nine columns whose successive play from `gameStart` fills row 0 after
the gravity inversion on turn 5 and ends in a draw. -/
def drawMoves : List Nat := [0, 1, 2, 3, 4, 3, 4, 5, 6]

/-- Iterate `playMove` over a column list, stopping silently on a
rejected move. -/
def playSeq (g : Game) : List Nat → Game
  | [] => g
  | c :: cs =>
    match playMove g c with
    | some g' => playSeq g' cs
    | none => g

/-- Check that every move of the column list is accepted. -/
def playsOk (g : Game) : List Nat → Bool
  | [] => true
  | c :: cs =>
    match playMove g c with
    | some g' => playsOk g' cs
    | none => false

/-- A small lobby with two chat messages, used to instantiate the chat
theorems. -/
def lobbyEx : Lobby :=
  { game := mkGame gridStart Cell.R 0 false, hasRed := true, hasYellow := true,
    chat := [{ id := 1, side := "R", name := "Rouge", text := "salut" },
             { id := 2, side := "Y", name := "Jaune", text := "gg" }],
    nextChatID := 2 }

/-- One-cell board for tiny witnesses. -/
def gridTiny : Board := [[Cell.empty]]

/-- The game on the one-cell board. -/
def gameTiny : Game := mkGame gridTiny Cell.R 0 false

/-- 1×2 board with one obstacle. -/
def gridTinyB : Board := [[Cell.blk, Cell.empty]]

/-- The game on the obstacle board. -/
def gameTinyB : Game := mkGame gridTinyB Cell.R 0 false

/-! Helper lemmas. -/

theorem getD_set_ne {α : Type} (l : List α) (i j : Nat) (v d : α) (h : i ≠ j) :
    (l.set i v).getD j d = l.getD j d := by
  induction l generalizing i j with
  | nil => simp [List.set]
  | cons a t ih =>
    cases i with
    | zero => cases j with
      | zero => exact absurd rfl h
      | succ j => simp [List.set]
    | succ i => cases j with
      | zero => simp [List.set]
      | succ j =>
        simp only [List.set, List.getD_cons_succ]
        exact ih i j (fun hij => h (by omega))

theorem getD_set_self {α : Type} (l : List α) (i : Nat) (v d : α) (h : i < l.length) :
    (l.set i v).getD i d = v := by
  induction l generalizing i with
  | nil => simp at h
  | cons a t ih =>
    cases i with
    | zero => simp [List.set]
    | succ i =>
      simp only [List.set, List.getD_cons_succ]
      exact ih i (by simpa using h)

/-- `setCell` leaves every other coordinate unchanged. -/
theorem cellAt_setCell_ne (grid : Board) (row col r c : Nat) (v : Cell)
    (h : r ≠ row ∨ c ≠ col) :
    cellAt (setCell grid row col v) r c = cellAt grid r c := by
  unfold cellAt setCell
  by_cases hr : r = row
  · subst hr
    have hc : c ≠ col := by
      rcases h with h | h
      · exact absurd rfl h
      · exact h
    by_cases hl : r < grid.length
    · rw [getD_set_self _ _ _ _ hl, getD_set_ne _ _ _ _ _ (fun hcc => hc hcc.symm)]
    · rw [List.set_eq_of_length_le (by omega)]
  · rw [getD_set_ne _ _ _ _ _ (fun hrr => hr hrr.symm)]

/-! C4: board configuration per difficulty. -/

/-- C4: `configByDifficulty` maps easy to a 6×7 board with 3 obstacles —
but normal to 6 rows × 9 columns with 5 obstacles and hard to 7 rows ×
8 columns with 7 obstacles, contradicting the documented 6×8/5 and
6×9/7 table. -/
theorem configByDifficulty_values :
    configByDifficulty "easy" = (6, 7, 3) ∧
    configByDifficulty "normal" = (6, 9, 5) ∧
    configByDifficulty "hard" = (7, 8, 7) :=
  ⟨rfl, rfl, rfl⟩

/-! C3: characterisation of `dropRow`. -/

theorem dropRowDown_some_iff (grid : Board) (col : Nat) :
    ∀ n r, dropRowDown grid col n = some r ↔
      (r < n ∧ cellAt grid r col = Cell.empty ∧
        ∀ r', r < r' → r' < n → cellAt grid r' col ≠ Cell.empty) := by
  intro n
  induction n with
  | zero => intro r; simp [dropRowDown]
  | succ n ih =>
    intro r
    unfold dropRowDown
    by_cases he : cellAt grid n col = Cell.empty
    · rw [if_pos he]
      simp only [Option.some_inj]
      constructor
      · rintro rfl
        exact ⟨Nat.lt_succ_self n, he, fun r' h1 h2 => by omega⟩
      · rintro ⟨h1, h2, h3⟩
        by_contra hne
        have hrn : r < n := by omega
        exact h3 n hrn (Nat.lt_succ_self n) he
    · rw [if_neg he, ih]
      constructor
      · rintro ⟨h1, h2, h3⟩
        refine ⟨by omega, h2, fun r' hr1 hr2 => ?_⟩
        by_cases hr' : r' = n
        · subst hr'; exact he
        · exact h3 r' hr1 (by omega)
      · rintro ⟨h1, h2, h3⟩
        have hrn : r ≠ n := fun hr => he (hr ▸ h2)
        exact ⟨by omega, h2, fun r' hr1 hr2 => h3 r' hr1 (by omega)⟩

theorem dropRowDown_none_iff (grid : Board) (col : Nat) :
    ∀ n, dropRowDown grid col n = none ↔
      ∀ r, r < n → cellAt grid r col ≠ Cell.empty := by
  intro n
  induction n with
  | zero => simp [dropRowDown]
  | succ n ih =>
    unfold dropRowDown
    by_cases he : cellAt grid n col = Cell.empty
    · rw [if_pos he]
      constructor
      · intro h; exact absurd h (by simp)
      · intro h; exact absurd he (h n (Nat.lt_succ_self n))
    · rw [if_neg he, ih]
      constructor
      · intro h r hr
        by_cases hr' : r = n
        · subst hr'; exact he
        · exact h r (by omega)
      · intro h r hr
        exact h r (by omega)

theorem dropRowUpAux_some_iff (grid : Board) (col : Nat) :
    ∀ n r0 r, dropRowUpAux grid col n r0 = some r ↔
      (r0 ≤ r ∧ r < r0 + n ∧ cellAt grid r col = Cell.empty ∧
        ∀ r', r0 ≤ r' → r' < r → cellAt grid r' col ≠ Cell.empty) := by
  intro n
  induction n with
  | zero => intro r0 r; simp [dropRowUpAux]; omega
  | succ n ih =>
    intro r0 r
    unfold dropRowUpAux
    by_cases he : cellAt grid r0 col = Cell.empty
    · rw [if_pos he]
      simp only [Option.some_inj]
      constructor
      · rintro rfl
        exact ⟨Nat.le_refl r0, by omega, he, fun r' h1 h2 => by omega⟩
      · rintro ⟨h1, h2, h3, h4⟩
        by_contra hne
        exact h4 r0 (Nat.le_refl r0) (by omega) he
    · rw [if_neg he, ih]
      constructor
      · rintro ⟨h1, h2, h3, h4⟩
        refine ⟨by omega, by omega, h3, fun r' hr1 hr2 => ?_⟩
        by_cases hr' : r' = r0
        · subst hr'; exact he
        · exact h4 r' (by omega) hr2
      · rintro ⟨h1, h2, h3, h4⟩
        have hr0 : r ≠ r0 := fun hr => he (hr ▸ h3)
        exact ⟨by omega, by omega, h3, fun r' hr1 hr2 => h4 r' (by omega) hr2⟩

theorem dropRowUpAux_none_iff (grid : Board) (col : Nat) :
    ∀ n r0, dropRowUpAux grid col n r0 = none ↔
      ∀ r, r0 ≤ r → r < r0 + n → cellAt grid r col ≠ Cell.empty := by
  intro n
  induction n with
  | zero => intro r0; simp [dropRowUpAux]; omega
  | succ n ih =>
    intro r0
    unfold dropRowUpAux
    by_cases he : cellAt grid r0 col = Cell.empty
    · rw [if_pos he]
      constructor
      · intro h; exact absurd h (by simp)
      · intro h; exact absurd he (h r0 (Nat.le_refl r0) (by omega))
    · rw [if_neg he, ih]
      constructor
      · intro h r hr1 hr2
        by_cases hr' : r = r0
        · subst hr'; exact he
        · exact h r (by omega) (by omega)
      · intro h r hr1 hr2
        exact h r (by omega) (by omega)

/-- A successful `dropRow` always lands on an empty, in-range cell —
no hypotheses on the board needed. -/
theorem dropRow_some_empty (grid : Board) (col : Nat) (gU : Bool) (r : Nat)
    (h : dropRow grid col gU = some r) :
    cellAt grid r col = Cell.empty ∧ r < height grid := by
  unfold dropRow at h
  by_cases hg : height grid = 0 ∨ width grid ≤ col
  · simp [hg] at h
  · rw [if_neg hg] at h
    cases gU with
    | false =>
      simp only [Bool.not_false] at h
      rw [if_pos trivial] at h
      have := (dropRowDown_some_iff grid col (height grid) r).mp h
      exact ⟨this.2.1, this.1⟩
    | true =>
      simp only [Bool.not_true] at h
      rw [if_neg (by simp)] at h
      have := (dropRowUpAux_some_iff grid col (height grid) 0 r).mp h
      exact ⟨this.2.2.1, by omega⟩

/-- C3: for an in-range column, `dropRow` under normal gravity returns
the empty cell with the largest row index, under inverted gravity the
empty cell with the smallest row index — occupied and obstacle cells are
skipped over, not blocking — and it returns no cell exactly when the
column has no empty cell at all. -/
theorem dropRow_spec (grid : Board) (col : Nat)
    (hcol : col < width grid) (hh : 0 < height grid) :
    (∀ r, dropRow grid col false = some r →
        r < height grid ∧ cellAt grid r col = Cell.empty ∧
        ∀ r', r < r' → r' < height grid → cellAt grid r' col ≠ Cell.empty) ∧
    (∀ r, dropRow grid col true = some r →
        r < height grid ∧ cellAt grid r col = Cell.empty ∧
        ∀ r', r' < r → cellAt grid r' col ≠ Cell.empty) ∧
    (∀ gU, dropRow grid col gU = none ↔
        ∀ r, r < height grid → cellAt grid r col ≠ Cell.empty) := by
  have hguard : ¬ (height grid = 0 ∨ width grid ≤ col) := by omega
  refine ⟨?_, ?_, ?_⟩
  · intro r h
    unfold dropRow at h
    rw [if_neg hguard] at h
    simp only [Bool.not_false] at h
    rw [if_pos trivial] at h
    exact (dropRowDown_some_iff grid col (height grid) r).mp h
  · intro r h
    unfold dropRow at h
    rw [if_neg hguard] at h
    simp only [Bool.not_true] at h
    rw [if_neg (by simp)] at h
    have := (dropRowUpAux_some_iff grid col (height grid) 0 r).mp h
    exact ⟨by omega, this.2.2.1, fun r' hr' => this.2.2.2 r' (Nat.zero_le r') hr'⟩
  · intro gU
    unfold dropRow
    rw [if_neg hguard]
    cases gU with
    | false =>
      simp only [Bool.not_false]
      rw [if_pos trivial, dropRowDown_none_iff]
    | true =>
      simp only [Bool.not_true]
      rw [if_neg (by simp), dropRowUpAux_none_iff]
      constructor
      · intro h r hr; exact h r (Nat.zero_le r) (by omega)
      · intro h r _ hr; exact h r (by omega)


/-- Witness for `dropRow_spec` on a concrete 2×2 board with one piece. -/
theorem dropRow_spec_witness :
    dropRow [[Cell.empty, Cell.empty], [Cell.R, Cell.empty]] 0 false = some 0 ∧
    (0 < height [[Cell.empty, Cell.empty], [Cell.R, Cell.empty]] ∧
      cellAt [[Cell.empty, Cell.empty], [Cell.R, Cell.empty]] 0 0 = Cell.empty) := by
  refine ⟨by decide, ?_⟩
  have h := (dropRow_spec [[Cell.empty, Cell.empty], [Cell.R, Cell.empty]] 0
    (by decide) (by decide)).1 0 (by decide)
  exact ⟨h.1, h.2.1⟩

theorem checkResult_grid (g : Game) (r c : Int) (p : Cell) :
    (checkResult g r c p).2.grid = g.grid := by
  by_cases hwin : 4 ≤ (winningLine g.grid r c p).length
  · by_cases hp : p = Cell.R
    · subst hp; simp [checkResult, hwin]
    · simp [checkResult, hwin, hp]
  · by_cases hdraw : isDraw g.grid = true <;> simp [checkResult, hwin, hdraw]

theorem checkResult_turns (g : Game) (r c : Int) (p : Cell) :
    (checkResult g r c p).2.turns = g.turns := by
  by_cases hwin : 4 ≤ (winningLine g.grid r c p).length
  · by_cases hp : p = Cell.R
    · subst hp; simp [checkResult, hwin]
    · simp [checkResult, hwin, hp]
  · by_cases hdraw : isDraw g.grid = true <;> simp [checkResult, hwin, hdraw]

theorem checkResult_current (g : Game) (r c : Int) (p : Cell) :
    (checkResult g r c p).2.current = g.current := by
  by_cases hwin : 4 ≤ (winningLine g.grid r c p).length
  · by_cases hp : p = Cell.R
    · subst hp; simp [checkResult, hwin]
    · simp [checkResult, hwin, hp]
  · by_cases hdraw : isDraw g.grid = true <;> simp [checkResult, hwin, hdraw]

theorem checkResult_gravityUp (g : Game) (r c : Int) (p : Cell) :
    (checkResult g r c p).2.gravityUp = g.gravityUp := by
  by_cases hwin : 4 ≤ (winningLine g.grid r c p).length
  · by_cases hp : p = Cell.R
    · subst hp; simp [checkResult, hwin]
    · simp [checkResult, hwin, hp]
  · by_cases hdraw : isDraw g.grid = true <;> simp [checkResult, hwin, hdraw]

theorem checkResult_gameOver (g : Game) (r c : Int) (p : Cell)
    (h : (checkResult g r c p).1 = true) : (checkResult g r c p).2.gameOver = true := by
  by_cases hwin : 4 ≤ (winningLine g.grid r c p).length
  · by_cases hp : p = Cell.R
    · subst hp; simp [checkResult, hwin]
    · simp [checkResult, hwin, hp]
  · by_cases hdraw : isDraw g.grid = true
    · simp [checkResult, hwin, hdraw]
    · simp [checkResult, hwin, hdraw] at h

theorem checkResult_eq_of_false (g : Game) (r c : Int) (p : Cell)
    (h : (checkResult g r c p).1 = false) : (checkResult g r c p).2 = g := by
  by_cases hwin : 4 ≤ (winningLine g.grid r c p).length
  · by_cases hp : p = Cell.R
    · subst hp; simp [checkResult, hwin] at h
    · simp [checkResult, hwin, hp] at h
  · by_cases hdraw : isDraw g.grid = true
    · simp [checkResult, hwin, hdraw] at h
    · simp [checkResult, hwin, hdraw]

theorem checkResult_fst_iff (g : Game) (r c : Int) (p : Cell) :
    (checkResult g r c p).1 = true ↔
      (4 ≤ (winningLine g.grid r c p).length ∨ isDraw g.grid = true) := by
  by_cases hwin : 4 ≤ (winningLine g.grid r c p).length
  · by_cases hp : p = Cell.R
    · subst hp; simp [checkResult, hwin]
    · simp [checkResult, hwin, hp]
  · by_cases hdraw : isDraw g.grid = true <;> simp [checkResult, hwin, hdraw]

/-- Decomposition of a successful `playMove`. -/
theorem playMove_eq (g : Game) (c : Nat) (g' : Game) (h : playMove g c = some g') :
    ∃ row, g.gameOver = false ∧ c < g.cols ∧
      dropRow g.grid c g.gravityUp = some row ∧
      cellAt g.grid row c = Cell.empty ∧
      (let g1 : Game := { g with grid := setCell g.grid row c g.current,
                                 lastPlayed := g.current, turns := g.turns + 1 }
       let res := checkResult g1 (row : Int) (c : Int) g.current
       (res.1 = true ∧ g' = res.2) ∨
       (res.1 = false ∧
        g' = (let g2 : Game := { res.2 with current := switchPlayer res.2.current }
              if g2.turns % 5 = 0 then { g2 with gravityUp := !g2.gravityUp, message := "" }
              else g2))) := by
  unfold playMove at h
  by_cases hgo : g.gameOver = true
  · rw [if_pos hgo] at h; exact absurd h (by simp)
  · rw [if_neg hgo] at h
    by_cases hcols : g.cols ≤ c
    · rw [if_pos hcols] at h; exact absurd h (by simp)
    · rw [if_neg hcols] at h
      cases hdrop : dropRow g.grid c g.gravityUp with
      | none => rw [hdrop] at h; exact absurd h (by simp)
      | some row =>
        rw [hdrop] at h
        dsimp only at h
        by_cases hcell : cellAt g.grid row c = Cell.empty
        · rw [if_neg (by simp [hcell])] at h
          refine ⟨row, by simpa using hgo, by omega, rfl, hcell, ?_⟩
          dsimp only at h ⊢
          split at h
          next g2 hck =>
            left
            rw [hck]
            exact ⟨rfl, (Option.some_inj.mp h).symm⟩
          next g2 hck =>
            right
            rw [hck]
            exact ⟨rfl, (Option.some_inj.mp h).symm⟩
        · rw [if_pos (show cellAt g.grid row c ≠ Cell.empty from hcell)] at h
          exact absurd h (by simp)

/-- Decomposition of an accepted `onlinePlay`. -/
theorem onlinePlay_eq (g : Game) (side : String) (c : Nat) (g' : Game)
    (h : onlinePlay g side c = (g', true)) :
    ∃ row, g.current = (if upperStr (trimStr side) = "Y" then Cell.Y else Cell.R) ∧
      g.gameOver = false ∧ dropRow g.grid c g.gravityUp = some row ∧
      cellAt g.grid row c = Cell.empty ∧
      (let g1 : Game := { g with grid := setCell g.grid row c g.current,
                                 turns := g.turns + 1 }
       let res := checkResult g1 (row : Int) (c : Int) g.current
       (res.1 = true ∧ g' = res.2) ∨
       (res.1 = false ∧
        g' = (let g2 : Game := { res.2 with current := switchPlayer res.2.current }
              if g2.turns % 5 = 0 then { g2 with gravityUp := !g2.gravityUp, message := "" }
              else g2))) := by
  unfold onlinePlay at h
  dsimp only at h
  by_cases hrej : g.current ≠ (if upperStr (trimStr side) = "Y" then Cell.Y else Cell.R) ∨
      g.gameOver = true
  · rw [if_pos hrej] at h
    exact absurd (congrArg Prod.snd h) (by simp)
  · rw [if_neg hrej] at h
    push_neg at hrej
    cases hdrop : dropRow g.grid c g.gravityUp with
    | none =>
      rw [hdrop] at h
      exact absurd (congrArg Prod.snd h) (by simp)
    | some row =>
      rw [hdrop] at h
      dsimp only at h
      by_cases hcell : cellAt g.grid row c = Cell.empty
      · rw [if_neg (by simp [hcell])] at h
        refine ⟨row, hrej.1, by simpa using hrej.2, rfl, hcell, ?_⟩
        dsimp only at h ⊢
        split at h
        next g2 hck =>
          left
          rw [hck]
          exact ⟨rfl, (congrArg Prod.fst h).symm⟩
        next g2 hck =>
          right
          rw [hck]
          exact ⟨rfl, (congrArg Prod.fst h).symm⟩
      · rw [if_pos (show cellAt g.grid row c ≠ Cell.empty from hcell)] at h
        exact absurd (congrArg Prod.snd h) (by simp)

/-- Shared post-`checkResult` analysis: after a placement that set the
turn counter to `turns + 1`, the gravity flag changes exactly on a
non-terminal move whose new turn count is a multiple of 5. -/
theorem afterCheck_turns_gravity (g g1 g' : Game) (r c : Int) (p : Cell)
    (ht : g1.turns = g.turns + 1) (hgo : g1.gameOver = false)
    (hgr : g1.gravityUp = g.gravityUp)
    (hpay : ((checkResult g1 r c p).1 = true ∧ g' = (checkResult g1 r c p).2) ∨
      ((checkResult g1 r c p).1 = false ∧
       g' = (let g2 : Game := { (checkResult g1 r c p).2 with
                                current := switchPlayer (checkResult g1 r c p).2.current }
             if g2.turns % 5 = 0 then { g2 with gravityUp := !g2.gravityUp, message := "" }
             else g2))) :
    g'.turns = g.turns + 1 ∧
    ((g'.gravityUp ≠ g.gravityUp) ↔ (g'.gameOver = false ∧ g'.turns % 5 = 0)) := by
  rcases hpay with ⟨h1, h2⟩ | ⟨h1, h2⟩
  · subst h2
    have hT := checkResult_turns g1 r c p
    have hG := checkResult_gravityUp g1 r c p
    have hO := checkResult_gameOver g1 r c p h1
    refine ⟨by rw [hT, ht], ?_⟩
    rw [hG, hgr, hO]
    simp
  · have hEq := checkResult_eq_of_false g1 r c p h1
    rw [hEq] at h2
    dsimp only at h2
    by_cases hmod : g1.turns % 5 = 0
    · rw [if_pos hmod] at h2
      subst h2
      refine ⟨ht, ?_⟩
      dsimp only
      rw [hgr, ht, hgo] at *
      simp [Bool.not_ne_self, hmod, ht ▸ hmod]
    · rw [if_neg hmod] at h2
      subst h2
      refine ⟨ht, ?_⟩
      dsimp only
      constructor
      · intro hx; rw [hgr] at hx; exact absurd rfl hx
      · rintro ⟨-, hx⟩; exact absurd hx hmod

/-- C2: on every successfully applied move (local/AI handler or online
handler), the turn counter increments by one, and the gravity flag flips
exactly when the move is non-terminal and the new cumulative turn count
is a multiple of 5 — a move that ends the game never flips gravity,
because the terminal check comes first. -/
theorem gravity_flip_spec (g g' : Game) (c : Nat) (side : String) :
    (playMove g c = some g' →
      g'.turns = g.turns + 1 ∧
      ((g'.gravityUp ≠ g.gravityUp) ↔ (g'.gameOver = false ∧ g'.turns % 5 = 0))) ∧
    (onlinePlay g side c = (g', true) →
      g'.turns = g.turns + 1 ∧
      ((g'.gravityUp ≠ g.gravityUp) ↔ (g'.gameOver = false ∧ g'.turns % 5 = 0))) := by
  constructor
  · intro h
    obtain ⟨row, hgo, _, _, _, hpay⟩ := playMove_eq g c g' h
    exact afterCheck_turns_gravity g
      ({ g with grid := setCell g.grid row c g.current, lastPlayed := g.current,
                turns := g.turns + 1 })
      g' (row : Int) (c : Int) g.current rfl hgo rfl hpay
  · intro h
    obtain ⟨row, _, hgo, _, _, hpay⟩ := onlinePlay_eq g side c g' h
    exact afterCheck_turns_gravity g
      ({ g with grid := setCell g.grid row c g.current, turns := g.turns + 1 })
      g' (row : Int) (c : Int) g.current rfl hgo rfl hpay

/-- Witness for `gravity_flip_spec`: the first move on a one-cell
board. -/
theorem gravity_flip_spec_witness :
    (playSeq gameTiny [0]).turns = gameTiny.turns + 1 ∧
    (((playSeq gameTiny [0]).gravityUp ≠ gameTiny.gravityUp) ↔
      ((playSeq gameTiny [0]).gameOver = false ∧ (playSeq gameTiny [0]).turns % 5 = 0)) :=
  (gravity_flip_spec gameTiny (playSeq gameTiny [0]) 0 "R").1 (by decide)


/-- Branch analysis of `handleOnlinePlay`: either the move is rejected
with the state returned untouched — and then one of the three rejection
conditions holds — or it is applied and none of them holds. -/
theorem onlinePlay_cases (g : Game) (side : String) (c : Nat) :
    (onlinePlay g side c = (g, false) ∧
      (g.current ≠ (if upperStr (trimStr side) = "Y" then Cell.Y else Cell.R) ∨
       g.gameOver = true ∨ dropRow g.grid c g.gravityUp = none)) ∨
    ((onlinePlay g side c).2 = true ∧
      g.current = (if upperStr (trimStr side) = "Y" then Cell.Y else Cell.R) ∧
      g.gameOver = false ∧ dropRow g.grid c g.gravityUp ≠ none) := by
  unfold onlinePlay
  dsimp only
  by_cases hrej : g.current ≠ (if upperStr (trimStr side) = "Y" then Cell.Y else Cell.R) ∨
      g.gameOver = true
  · rw [if_pos hrej]
    exact Or.inl ⟨rfl, Or.imp_right Or.inl hrej⟩
  · rw [if_neg hrej]
    push_neg at hrej
    cases hdrop : dropRow g.grid c g.gravityUp with
    | none => exact Or.inl ⟨rfl, Or.inr (Or.inr rfl)⟩
    | some row =>
      dsimp only
      have hcell := (dropRow_some_empty g.grid c g.gravityUp row hdrop).1
      rw [if_neg (by simp [hcell])]
      right
      refine ⟨?_, hrej.1, by simpa using hrej.2, by simp⟩
      split <;> rfl

/-- C5: an online move is rejected — leaving the lobby's game state
entirely unchanged — exactly when it is not the requesting side's turn,
or the game is already over, or the requested column has no landing
cell; an accepted move places the current player's piece, counts the
turn, and either enters a terminal state or passes the turn to the
other player. -/
theorem onlinePlay_spec (g : Game) (side : String) (c : Nat) :
    ((onlinePlay g side c).2 = false ↔
      (g.current ≠ (if upperStr (trimStr side) = "Y" then Cell.Y else Cell.R) ∨
        g.gameOver = true ∨ dropRow g.grid c g.gravityUp = none)) ∧
    ((onlinePlay g side c).2 = false → (onlinePlay g side c).1 = g) ∧
    (∀ row g', dropRow g.grid c g.gravityUp = some row →
      onlinePlay g side c = (g', true) →
      g'.grid = setCell g.grid row c g.current ∧ g'.turns = g.turns + 1 ∧
      (g'.gameOver = true ∨ g'.current = switchPlayer g.current)) := by
  refine ⟨?_, ?_, ?_⟩
  · rcases onlinePlay_cases g side c with ⟨heq, hcond⟩ | ⟨h2, hcur, hgo, hd⟩
    · rw [heq]
      simp only [iff_true]
      exact ⟨fun _ => hcond, fun _ => trivial⟩
    · rw [h2]
      constructor
      · intro hx; exact absurd hx (by simp)
      · rintro (hx | hx | hx)
        · exact absurd hcur hx
        · rw [hgo] at hx; exact absurd hx (by simp)
        · exact absurd hx hd
  · intro hx
    rcases onlinePlay_cases g side c with ⟨heq, -⟩ | ⟨h2, -⟩
    · rw [heq]
    · rw [h2] at hx; exact absurd hx (by simp)
  · intro row g' hdrop happ
    obtain ⟨row', _, _, hdrop', _, hpay⟩ := onlinePlay_eq g side c g' happ
    rw [hdrop] at hdrop'
    obtain rfl : row' = row := (Option.some_inj.mp hdrop').symm
    rcases hpay with ⟨h1, heq⟩ | ⟨h1, heq⟩
    · refine ⟨?_, ?_, Or.inl ?_⟩
      · rw [heq, checkResult_grid]
      · rw [heq, checkResult_turns]
      · rw [heq]
        exact checkResult_gameOver _ _ _ _ h1
    · refine ⟨?_, ?_, Or.inr ?_⟩
      · rw [heq]
        dsimp only
        split <;> rw [checkResult_grid]
      · rw [heq]
        dsimp only
        split <;> rw [checkResult_turns]
      · rw [heq]
        dsimp only
        split <;> rw [checkResult_current]

/-- Witness for `onlinePlay_spec`: yellow trying to move first on the
one-cell board is rejected and changes nothing. -/
theorem onlinePlay_spec_witness :
    (onlinePlay gameTiny "Y" 0).2 = false ∧ (onlinePlay gameTiny "Y" 0).1 = gameTiny :=
  ⟨by decide, (onlinePlay_spec gameTiny "Y" 0).2.1 (by decide)⟩

/-- C1: on `gameBlock` yellow has no immediately winning column, red
wins at once by playing column 3, and playing column 3 is the only move
that removes that threat — yet `chooseAIMove` picks column 2.  The
`needBlock` bonus of +5000 is added to a candidate column when, after
the hypothetical yellow placement there, red *still* has an immediate
win; so the bonus rewards exactly the non-blocking columns and the
heuristic avoids the block instead of preferring it. -/
theorem chooseAIMove_no_block :
    ((List.range 4).all fun c =>
      match dropRow gridBlock c false with
      | some r => decide ((winningLine (setCell gridBlock r c Cell.Y)
          (r : Int) (c : Int) Cell.Y).length < 4)
      | none => true) = true ∧
    dropRow gridBlock 3 false = some 3 ∧
    4 ≤ (winningLine (setCell gridBlock 3 3 Cell.R) 3 3 Cell.R).length ∧
    ((List.range 4).all fun cc =>
      match dropRow (setCell gridBlock 3 3 Cell.Y) cc false with
      | some rr => decide ((winningLine (setCell (setCell gridBlock 3 3 Cell.Y) rr cc Cell.R)
          (rr : Int) (cc : Int) Cell.R).length < 4)
      | none => true) = true ∧
    dropRow gridBlock 2 false = some 2 ∧
    4 ≤ (winningLine (setCell (setCell gridBlock 2 2 Cell.Y) 3 3 Cell.R) 3 3 Cell.R).length ∧
    chooseAIMove gameBlock = 2 := by
  refine ⟨by decide, by decide, by decide, by decide, by decide, by decide, by decide⟩

/-- The grid after a successful `playMove` is the old grid with the
current player's piece written into a previously empty cell. -/
theorem playMove_grid (g : Game) (c : Nat) (g' : Game) (h : playMove g c = some g') :
    ∃ row, cellAt g.grid row c = Cell.empty ∧
      g'.grid = setCell g.grid row c g.current := by
  obtain ⟨row, _, _, _, hcell, hpay⟩ := playMove_eq g c g' h
  refine ⟨row, hcell, ?_⟩
  rcases hpay with ⟨h1, heq⟩ | ⟨h1, heq⟩
  · rw [heq, checkResult_grid]
  · rw [heq]
    dsimp only
    split <;> rw [checkResult_grid]

/-- The grid after an accepted `onlinePlay` is the old grid with the
current player's piece written into a previously empty cell. -/
theorem onlinePlay_grid (g : Game) (side : String) (c : Nat) (g' : Game)
    (h : onlinePlay g side c = (g', true)) :
    ∃ row, cellAt g.grid row c = Cell.empty ∧
      g'.grid = setCell g.grid row c g.current := by
  obtain ⟨row, _, _, _, hcell, hpay⟩ := onlinePlay_eq g side c g' h
  refine ⟨row, hcell, ?_⟩
  rcases hpay with ⟨h1, heq⟩ | ⟨h1, heq⟩
  · rw [heq, checkResult_grid]
  · rw [heq]
    dsimp only
    split <;> rw [checkResult_grid]

/-- A single applied move never overwrites an obstacle cell. -/
theorem step_preserves_blk (g g' : Game) (h : Step g g') (r c : Nat)
    (hb : cellAt g.grid r c = Cell.blk) : cellAt g'.grid r c = Cell.blk := by
  have key : ∀ row col, cellAt g.grid row col = Cell.empty →
      g'.grid = setCell g.grid row col g.current → cellAt g'.grid r c = Cell.blk := by
    intro row col hcell hgrid
    rw [hgrid]
    by_cases hrc : r = row ∧ c = col
    · exfalso
      rw [hrc.1, hrc.2] at hb
      rw [hb] at hcell
      cases hcell
    · rw [cellAt_setCell_ne _ _ _ _ _ _ (by tauto)]
      exact hb
  cases h with
  | play c2 hp =>
    obtain ⟨row, hc, hg⟩ := playMove_grid _ _ _ hp
    exact key row c2 hc hg
  | online side c2 hp =>
    obtain ⟨row, hc, hg⟩ := onlinePlay_grid _ _ _ _ hp
    exact key row c2 hc hg

/-- C9: in every state reachable from any state by applied moves
(local, AI or online), every obstacle cell still holds its `Blocked`
marker: `dropRow` only ever selects empty cells as landing targets, so
no move operation overwrites an obstacle. -/
theorem blocked_cells_invariant (g g' : Game) (h : Reach g g') (r c : Nat)
    (hb : cellAt g.grid r c = Cell.blk) : cellAt g'.grid r c = Cell.blk := by
  induction h with
  | refl => exact hb
  | tail _ hstep ih => exact step_preserves_blk _ _ hstep r c ih

/-- Witness for `blocked_cells_invariant`: the obstacle of a 1×2 board
survives the move filling the other cell. -/
theorem blocked_cells_invariant_witness :
    cellAt gameTinyB.grid 0 0 = Cell.blk ∧
    cellAt (playSeq gameTinyB [1]).grid 0 0 = Cell.blk :=
  ⟨by decide, blocked_cells_invariant gameTinyB (playSeq gameTinyB [1])
    (Relation.ReflTransGen.single (Step.play gameTinyB (playSeq gameTinyB [1]) 1 (by decide)))
    0 0 (by decide)⟩

/-- Every column list whose moves are all accepted yields a reachable
state. -/
theorem reach_playSeq (g : Game) (ms : List Nat) (h : playsOk g ms = true) :
    Reach g (playSeq g ms) := by
  induction ms generalizing g with
  | nil => exact Relation.ReflTransGen.refl
  | cons c cs ih =>
    unfold playsOk at h
    unfold playSeq
    cases hm : playMove g c with
    | none => rw [hm] at h; exact absurd h (by simp)
    | some g2 =>
      rw [hm] at h
      exact Relation.ReflTransGen.head (Step.play g g2 c hm) (ih g2 h)

/-- C10: a game reachable from a fresh easy-difficulty game can end as a
draw — `isDraw` holds because row 0 is fully occupied after the gravity
inversion on turn 5 — while the board still has empty cells in which
`dropRow` would produce a legal landing cell. -/
theorem draw_with_playable_cells :
    ∃ g0 gN : Game, IsNewGame g0 6 7 3 ∧ Reach g0 gN ∧
      gN.gameOver = true ∧ gN.message = "🤝 Égalité !" ∧ isDraw gN.grid = true ∧
      ∃ c r, dropRow gN.grid c gN.gravityUp = some r ∧
        cellAt gN.grid r c = Cell.empty := by
  refine ⟨gameStart, playSeq gameStart drawMoves, by decide,
    reach_playSeq gameStart drawMoves (by decide),
    by decide, by decide, by decide, 0, 1, by decide, by decide⟩

set_option maxRecDepth 8000 in
/-- C7: a chat post to an existing lobby is rejected — leaving the lobby
untouched — exactly when the trimmed text is empty or the normalised
side is neither `R` nor `Y`; an accepted post stores the first 240
characters of the trimmed text under an id strictly greater than every
previously issued id, and afterwards the log holds only the most recent
200 messages (a suffix of the appended log), with the id/order invariant
preserved. -/
theorem postChat_spec (lb : Lobby) (side name text : String) (hinv : ChatInv lb) :
    ((postChat lb side name text).2 = none ↔
      (trimStr text = "" ∨
        (upperStr (trimStr side) ≠ "R" ∧ upperStr (trimStr side) ≠ "Y"))) ∧
    ((postChat lb side name text).2 = none → (postChat lb side name text).1 = lb) ∧
    (∀ msg, (postChat lb side name text).2 = some msg →
      msg.text.toList = (trimStr text).toList.take 240 ∧
      msg.id = lb.nextChatID + 1 ∧
      (∀ m ∈ lb.chat, m.id < msg.id) ∧
      (postChat lb side name text).1.chat.length = min (lb.chat.length + 1) 200 ∧
      (postChat lb side name text).1.chat <:+ (lb.chat ++ [msg]) ∧
      ChatInv (postChat lb side name text).1) := by
  unfold postChat
  dsimp only
  by_cases hrej : (upperStr (trimStr side) ≠ "R" ∧ upperStr (trimStr side) ≠ "Y") ∨
      trimStr text = ""
  · rw [if_pos hrej]
    refine ⟨⟨fun _ => hrej.symm.imp id id, fun _ => rfl⟩, fun _ => rfl, ?_⟩
    intro msg hmsg
    exact absurd hmsg (by simp)
  · rw [if_neg hrej]
    push_neg at hrej
    refine ⟨⟨fun hx => absurd hx (by simp), fun hx => ?_⟩,
      fun hx => absurd hx (by simp), ?_⟩
    · rcases hx with hx | hx
      · exact absurd hx hrej.2
      · exact absurd (hrej.1 hx.1) hx.2
    · intro msg hmsg
      dsimp only at hmsg
      have hmsg' := Option.some_inj.mp hmsg
      rw [hmsg']
      have hid : msg.id = lb.nextChatID + 1 := by rw [← hmsg']
      have htext : msg.text.toList = (trimStr text).toList.take 240 := by
        rw [← hmsg']
        dsimp only
        split
        · rfl
        · next hlen =>
          exact (List.take_of_length_le (Nat.le_of_not_lt hlen)).symm
      have hlt : ∀ m ∈ lb.chat, m.id < msg.id := by
        intro m hm
        have := (hinv.2.2 m hm).2
        omega
      have hPairAll : (lb.chat ++ [msg]).Pairwise (fun a b => a.id < b.id) := by
        rw [List.pairwise_append]
        refine ⟨hinv.2.1, List.pairwise_singleton _ _, ?_⟩
        intro a ha b hb
        rw [List.mem_singleton] at hb
        subst hb
        exact hlt a ha
      have hBoundAll : ∀ m ∈ lb.chat ++ [msg], 0 < m.id ∧ m.id ≤ lb.nextChatID + 1 := by
        intro m hm
        rw [List.mem_append, List.mem_singleton] at hm
        rcases hm with hm | hm
        · have := hinv.2.2 m hm
          exact ⟨this.1, by omega⟩
        · subst hm
          have := hinv.1
          omega
      refine ⟨htext, hid, hlt, ?_, ?_, ?_, ?_, ?_⟩
      · split
        · next hcap =>
          rw [List.length_drop]
          simp only [List.length_append, List.length_singleton] at hcap ⊢
          omega
        · next hcap =>
          simp only [List.length_append, List.length_singleton] at hcap ⊢
          omega
      · split
        · exact List.drop_suffix _ _
        · exact List.suffix_refl _
      · have := hinv.1
        show (0 : Int) ≤ lb.nextChatID + 1
        omega
      · show List.Pairwise _ _
        split
        · exact List.Pairwise.sublist
            (List.IsSuffix.sublist (List.drop_suffix _ _)) hPairAll
        · exact hPairAll
      · intro m hm
        refine hBoundAll m ?_
        revert hm
        show m ∈ _ → m ∈ _
        split
        · intro hm
          exact (List.IsSuffix.sublist (List.drop_suffix _ _)).mem hm
        · intro hm
          exact hm

/-- Witness for `postChat_spec`: an empty-text post to the concrete
lobby is rejected without modifying it. -/
theorem postChat_spec_witness :
    (postChat lobbyEx "R" "Rouge" "").2 = none ∧
    (postChat lobbyEx "R" "Rouge" "").1 = lobbyEx :=
  ⟨by decide, (postChat_spec lobbyEx "R" "Rouge" "" (by decide)).2.1 (by decide)⟩

/-- C8: chat retrieval returns exactly the stored messages with id
greater than `since`, in increasing id order; it is empty when every
stored id is at most `since` or the lobby is absent, and returns the
whole log for `since = 0`. -/
theorem fetchChat_spec (lb : Lobby) (since : Int) (hinv : ChatInv lb) :
    (∀ m, m ∈ fetchChatSince (some lb) since ↔ (m ∈ lb.chat ∧ since < m.id)) ∧
    (fetchChatSince (some lb) since).Pairwise (fun a b => a.id < b.id) ∧
    ((∀ m ∈ lb.chat, m.id ≤ since) → fetchChatSince (some lb) since = []) ∧
    fetchChatSince (some lb) 0 = lb.chat ∧
    fetchChatSince none since = [] := by
  refine ⟨?_, ?_, ?_, ?_, rfl⟩
  · intro m
    unfold fetchChatSince
    rw [List.mem_filter]
    simp
  · exact List.Pairwise.sublist (List.filter_sublist _) hinv.2.1
  · intro hall
    unfold fetchChatSince
    rw [List.filter_eq_nil_iff]
    intro m hm
    simpa using hall m hm
  · unfold fetchChatSince
    rw [List.filter_eq_self]
    intro m hm
    simpa using (hinv.2.2 m hm).1

/-- Witness for `fetchChat_spec`: fetching since 0 on the concrete
lobby returns the full log. -/
theorem fetchChat_spec_witness :
    fetchChatSince (some lobbyEx) 0 = lobbyEx.chat :=
  (fetchChat_spec lobbyEx 0 (by decide)).2.2.2.1

/-! Lemmas about the line scanner `runDir`. -/

theorem runDir_unfold (grid : Board) (p : Cell) (dr dc : Int) (n : Nat) (rr cc : Int) :
    runDir grid p dr dc (n + 1) rr cc =
      if Good grid p (rr, cc) then
        (rr, cc) :: runDir grid p dr dc n (rr + dr) (cc + dc)
      else [] := rfl

theorem runDir_good (grid : Board) (p : Cell) (dr dc : Int) :
    ∀ (n : Nat) (rr cc : Int), ∀ q ∈ runDir grid p dr dc n rr cc, Good grid p q := by
  intro n
  induction n with
  | zero => intro rr cc q hq; simp [runDir] at hq
  | succ n ih =>
    intro rr cc q hq
    rw [runDir_unfold] at hq
    by_cases hg : Good grid p (rr, cc)
    · rw [if_pos hg] at hq
      rcases List.mem_cons.mp hq with rfl | hq
      · exact hg
      · exact ih _ _ q hq
    · rw [if_neg hg] at hq
      simp at hq

theorem runDir_chain (grid : Board) (p : Cell) (dr dc : Int) :
    ∀ (n : Nat) (rr cc : Int),
      (runDir grid p dr dc n rr cc).Chain' (fun q q' => q' = (q.1 + dr, q.2 + dc)) := by
  intro n
  induction n with
  | zero => intro rr cc; simp [runDir]
  | succ n ih =>
    intro rr cc
    rw [runDir_unfold]
    by_cases hg : Good grid p (rr, cc)
    · rw [if_pos hg]
      rw [List.chain'_cons']
      refine ⟨?_, ih _ _⟩
      intro y hy
      cases n with
      | zero => simp [runDir] at hy
      | succ n =>
        rw [runDir_unfold] at hy
        by_cases hg2 : Good grid p (rr + dr, cc + dc)
        · rw [if_pos hg2] at hy
          simp at hy
          exact hy.symm
        · rw [if_neg hg2] at hy
          simp at hy
    · rw [if_neg hg]
      simp

theorem runDir_head (grid : Board) (p : Cell) (dr dc : Int) (n : Nat) (rr cc : Int)
    (q : Int × Int) (t : List (Int × Int)) (h : runDir grid p dr dc n rr cc = q :: t) :
    q = (rr, cc) := by
  cases n with
  | zero => simp [runDir] at h
  | succ n =>
    rw [runDir_unfold] at h
    by_cases hg : Good grid p (rr, cc)
    · rw [if_pos hg] at h
      injection h with h1 h2
      exact h1.symm
    · rw [if_neg hg] at h
      cases h

theorem runDir_pos (grid : Board) (p : Cell) (dr dc : Int) :
    ∀ (n : Nat) (rr cc : Int) (i : Nat), i < (runDir grid p dr dc n rr cc).length →
      Good grid p (rr + i * dr, cc + i * dc) := by
  intro n
  induction n with
  | zero => intro rr cc i hi; simp [runDir] at hi
  | succ n ih =>
    intro rr cc i hi
    rw [runDir_unfold] at hi
    by_cases hg : Good grid p (rr, cc)
    · rw [if_pos hg] at hi
      rw [List.length_cons] at hi
      cases i with
      | zero => simpa using hg
      | succ j =>
        have := ih (rr + dr) (cc + dc) j (by omega)
        convert this using 2 <;> push_cast <;> ring
    · rw [if_neg hg] at hi
      simp at hi

theorem runDir_max (grid : Board) (p : Cell) (dr dc : Int) :
    ∀ (n : Nat) (rr cc : Int), (runDir grid p dr dc n rr cc).length < n →
      ((runDir grid p dr dc n rr cc = [] → ¬ Good grid p (rr, cc)) ∧
       (∀ q, (runDir grid p dr dc n rr cc).getLast? = some q →
         ¬ Good grid p (q.1 + dr, q.2 + dc))) := by
  intro n
  induction n with
  | zero => intro rr cc h; omega
  | succ n ih =>
    intro rr cc h
    rw [runDir_unfold] at h ⊢
    by_cases hg : Good grid p (rr, cc)
    · rw [if_pos hg] at h ⊢
      rw [List.length_cons] at h
      refine ⟨fun hx => (List.noConfusion hx), ?_⟩
      intro q hq
      cases hrest : runDir grid p dr dc n (rr + dr) (cc + dc) with
      | nil =>
        rw [hrest] at hq
        simp at hq
        subst hq
        exact (ih (rr + dr) (cc + dc) (by omega)).1 hrest
      | cons b t =>
        rw [hrest] at hq
        have := (ih (rr + dr) (cc + dc) (by omega)).2 q
        rw [hrest] at this
        exact this hq
    · rw [if_neg hg] at h ⊢
      exact ⟨fun _ => hg, fun q hq => by simp at hq⟩
/-- Along any axis direction (some coordinate steps by ±1), the scan
stops within `max height width` cells. -/
theorem runDir_len_le (grid : Board) (p : Cell) (dr dc : Int)
    (hd : dr = 1 ∨ dr = -1 ∨ dc = 1 ∨ dc = -1) (n : Nat) (rr cc : Int) :
    (runDir grid p dr dc n rr cc).length ≤ max (height grid) (width grid) := by
  rcases Nat.eq_zero_or_pos (runDir grid p dr dc n rr cc).length with h0 | hpos
  · omega
  · obtain ⟨hin1, -⟩ := runDir_pos grid p dr dc n rr cc 0 (by omega)
    obtain ⟨hin2, -⟩ := runDir_pos grid p dr dc n rr cc
      ((runDir grid p dr dc n rr cc).length - 1) (by omega)
    unfold InB at hin1 hin2
    rcases hd with rfl | rfl | rfl | rfl
    · simp only [Nat.cast_zero, zero_mul, add_zero, mul_one] at hin1 hin2
      omega
    · simp only [Nat.cast_zero, zero_mul, add_zero, mul_neg_one] at hin1 hin2
      omega
    · simp only [Nat.cast_zero, zero_mul, add_zero, mul_one] at hin1 hin2
      omega
    · simp only [Nat.cast_zero, zero_mul, add_zero, mul_neg_one] at hin1 hin2
      omega

/-- If `t` consecutive cells from the start are all good, the scan
collects at least `t` of them (given enough fuel). -/
theorem runDir_len_ge (grid : Board) (p : Cell) (dr dc : Int) :
    ∀ (t n : Nat) (rr cc : Int), t ≤ n →
      (∀ i : Nat, i < t → Good grid p (rr + i * dr, cc + i * dc)) →
      t ≤ (runDir grid p dr dc n rr cc).length := by
  intro t
  induction t with
  | zero => intro n rr cc _ _; omega
  | succ t ih =>
    intro n rr cc htn hgood
    cases n with
    | zero => omega
    | succ n =>
      rw [runDir_unfold]
      have h0 := hgood 0 (by omega)
      simp only [Nat.cast_zero, zero_mul, add_zero] at h0
      rw [if_pos h0, List.length_cons]
      have hrec : t ≤ (runDir grid p dr dc n (rr + dr) (cc + dc)).length := by
        refine ih n (rr + dr) (cc + dc) (by omega) ?_
        intro i hi
        have h2 := hgood (i + 1) (by omega)
        convert h2 using 2 <;> push_cast <;> ring
      omega
/-- The per-direction line built by `winningLine` is, when the placed
cell is in bounds and holds `p`, the maximal contiguous run of `p`-cells
through that cell along the axis, ordered from one end to the other, and
it contains the placed cell. -/
theorem lineDir_isRun (grid : Board) (r c : Int) (p : Cell) (d : Int × Int)
    (hd1 : d.1 = 1 ∨ d.1 = -1 ∨ d.2 = 1 ∨ d.2 = -1)
    (hin : InB grid r c) (hp : cellAtI grid r c = p) :
    IsRun grid p d (lineDir grid r c p d) ∧ (r, c) ∈ lineDir grid r c p d := by
  have hh : 1 ≤ height grid := by
    have h1 := hin.1
    have h2 := hin.2.1
    omega
  have hw : 1 ≤ width grid := by
    have h1 := hin.2.2.1
    have h2 := hin.2.2.2
    omega
  have hd1' : -d.1 = 1 ∨ -d.1 = -1 ∨ -d.2 = 1 ∨ -d.2 = -1 := by omega
  have hAlen : (runDir grid p (-d.1) (-d.2) (height grid + width grid)
      (r - d.1) (c - d.2)).length < height grid + width grid := by
    have := runDir_len_le grid p (-d.1) (-d.2) hd1' (height grid + width grid)
      (r - d.1) (c - d.2)
    omega
  have hFlen : (runDir grid p d.1 d.2 (height grid + width grid)
      (r + d.1) (c + d.2)).length < height grid + width grid := by
    have := runDir_len_le grid p d.1 d.2 hd1 (height grid + width grid)
      (r + d.1) (c + d.2)
    omega
  have hAmax := runDir_max grid p (-d.1) (-d.2) (height grid + width grid)
    (r - d.1) (c - d.2) hAlen
  have hFmax := runDir_max grid p d.1 d.2 (height grid + width grid)
    (r + d.1) (c + d.2) hFlen
  unfold lineDir
  dsimp only
  refine ⟨⟨?_, ?_, ?_, ?_⟩, List.mem_append_right _ (List.mem_cons_self _ _)⟩
  · -- consecutive cells step by d
    rw [List.chain'_append]
    refine ⟨?_, ?_, ?_⟩
    · refine (List.chain'_reverse).mpr
        (List.Chain'.imp ?_ (runDir_chain grid p (-d.1) (-d.2) _ _ _))
      intro a b hab
      show a = (b.1 + d.1, b.2 + d.2)
      subst hab
      rw [Prod.ext_iff]
      constructor <;> dsimp only <;> ring
    · rw [List.chain'_cons']
      refine ⟨?_, runDir_chain grid p d.1 d.2 _ _ _⟩
      intro y hy
      cases hF : runDir grid p d.1 d.2 (height grid + width grid)
          (r + d.1) (c + d.2) with
      | nil => rw [hF] at hy; simp at hy
      | cons f t =>
        rw [hF] at hy
        simp only [List.head?_cons, Option.mem_def, Option.some_inj] at hy
        subst hy
        exact runDir_head grid p d.1 d.2 _ _ _ f t hF
    · intro x hx y hy
      simp only [List.head?_cons, Option.mem_def, Option.some_inj] at hy
      subst hy
      rw [List.getLast?_reverse] at hx
      cases hA : runDir grid p (-d.1) (-d.2) (height grid + width grid)
          (r - d.1) (c - d.2) with
      | nil => rw [hA] at hx; simp at hx
      | cons a t =>
        rw [hA] at hx
        simp only [List.head?_cons, Option.mem_def, Option.some_inj] at hx
        subst hx
        rw [runDir_head grid p (-d.1) (-d.2) _ _ _ a t hA]
        rw [Prod.ext_iff]
        constructor <;> dsimp only <;> ring
  · -- every cell of the line is in bounds and holds p
    intro q hq
    rw [List.mem_append, List.mem_reverse] at hq
    rcases hq with hq | hq
    · exact runDir_good grid p (-d.1) (-d.2) _ _ _ q hq
    · rcases List.mem_cons.mp hq with rfl | hq
      · exact ⟨hin, hp⟩
      · exact runDir_good grid p d.1 d.2 _ _ _ q hq
  · -- the cell just before the head is not part of the run
    intro q hq
    rw [List.head?_append, List.head?_reverse] at hq
    cases hL : (runDir grid p (-d.1) (-d.2) (height grid + width grid)
        (r - d.1) (c - d.2)).getLast? with
    | none =>
      rw [hL] at hq
      simp only [Option.none_or, List.head?_cons, Option.some_inj] at hq
      subst hq
      have hAnil := List.getLast?_eq_none_iff.mp hL
      have := hAmax.1 hAnil
      intro hgood
      refine this ?_
      convert hgood using 2
    | some z =>
      rw [hL] at hq
      simp only [Option.or_some, Option.some_inj] at hq
      subst hq
      have := hAmax.2 z hL
      intro hgood
      refine this ?_
      convert hgood using 2
  · -- the cell just after the last is not part of the run
    intro q hq
    rw [List.getLast?_append] at hq
    cases hF : runDir grid p d.1 d.2 (height grid + width grid)
        (r + d.1) (c + d.2) with
    | nil =>
      rw [hF] at hq
      simp only [List.getLast?_singleton, Option.or_some, Option.some_inj] at hq
      subst hq
      exact hFmax.1 hF
    | cons f t =>
      rw [hF] at hq
      rw [List.getLast?_cons_cons] at hq
      cases hL : (f :: t).getLast? with
      | none => exact absurd (List.getLast?_eq_none_iff.mp hL) (by simp)
      | some z =>
        rw [hL] at hq
        simp only [Option.or_some, Option.some_inj] at hq
        subst hq
        refine hFmax.2 z ?_
        rw [hF]
        exact hL
theorem lineDir_length (grid : Board) (r c : Int) (p : Cell) (d : Int × Int) :
    (lineDir grid r c p d).length =
      (runDir grid p (-d.1) (-d.2) (height grid + width grid)
        (r - d.1) (c - d.2)).length + 1 +
      (runDir grid p d.1 d.2 (height grid + width grid)
        (r + d.1) (c + d.2)).length := by
  unfold lineDir
  dsimp only
  rw [List.length_append, List.length_reverse, List.length_cons]
  omega

/-- Every offset between the two scan extents is a good cell. -/
theorem lineDir_good_offset (grid : Board) (r c : Int) (p : Cell) (d : Int × Int)
    (hin : InB grid r c) (hp : cellAtI grid r c = p) (o : Int)
    (h1 : -((runDir grid p (-d.1) (-d.2) (height grid + width grid)
        (r - d.1) (c - d.2)).length : Int) ≤ o)
    (h2 : o ≤ ((runDir grid p d.1 d.2 (height grid + width grid)
        (r + d.1) (c + d.2)).length : Int)) :
    Good grid p (r + o * d.1, c + o * d.2) := by
  rcases lt_trichotomy o 0 with ho | ho | ho
  · have hi : ((-o - 1).toNat : Int) = -o - 1 := Int.toNat_of_nonneg (by omega)
    have hlt : (-o - 1).toNat < (runDir grid p (-d.1) (-d.2)
        (height grid + width grid) (r - d.1) (c - d.2)).length := by omega
    have hg := runDir_pos grid p (-d.1) (-d.2) (height grid + width grid)
      (r - d.1) (c - d.2) _ hlt
    convert hg using 2 <;> rw [hi] <;> ring
  · subst ho
    simpa using (⟨hin, hp⟩ : Good grid p (r, c))
  · have hi : ((o - 1).toNat : Int) = o - 1 := Int.toNat_of_nonneg (by omega)
    have hlt : (o - 1).toNat < (runDir grid p d.1 d.2
        (height grid + width grid) (r + d.1) (c + d.2)).length := by omega
    have hg := runDir_pos grid p d.1 d.2 (height grid + width grid)
      (r + d.1) (c + d.2) _ hlt
    convert hg using 2 <;> rw [hi] <;> ring

/-- The line through `(r, c)` along axis `d` reaches length 4 exactly
when four consecutive good cells along `d` contain `(r, c)`. -/
theorem lineDir_four_iff (grid : Board) (r c : Int) (p : Cell) (d : Int × Int)
    (hd1 : d.1 = 1 ∨ d.1 = -1 ∨ d.2 = 1 ∨ d.2 = -1)
    (hin : InB grid r c) (hp : cellAtI grid r c = p) :
    4 ≤ (lineDir grid r c p d).length ↔ FourThrough grid p r c d := by
  constructor
  · intro hlen
    rw [lineDir_length] at hlen
    refine ⟨min ((runDir grid p (-d.1) (-d.2) (height grid + width grid)
      (r - d.1) (c - d.2)).length) 3, by omega, ?_⟩
    intro j hj
    refine lineDir_good_offset grid r c p d hin hp _ ?_ ?_ <;> omega
  · rintro ⟨k, hk4, hk⟩
    rw [lineDir_length]
    have hfuel : 3 ≤ height grid + width grid := by
      obtain ⟨hin0, -⟩ := hk 0 (by omega)
      obtain ⟨hin3, -⟩ := hk 3 (by omega)
      unfold InB at hin0 hin3
      obtain ⟨a0, b0, c0, d0⟩ := hin0
      obtain ⟨a3, b3, c3, d3⟩ := hin3
      rcases hd1 with h | h | h | h <;>
        rw [h] at a0 b0 c0 d0 a3 b3 c3 d3 <;>
        simp only [mul_one, mul_neg_one] at a0 b0 c0 d0 a3 b3 c3 d3 <;>
        omega
    have hback : k ≤ (runDir grid p (-d.1) (-d.2) (height grid + width grid)
        (r - d.1) (c - d.2)).length := by
      refine runDir_len_ge grid p (-d.1) (-d.2) k _ _ _ (by omega) ?_
      intro i hi
      have hcast : ((k - 1 - i : Nat) : Int) = (k : Int) - 1 - i := by omega
      have h2 := hk (k - 1 - i) (by omega)
      rw [hcast] at h2
      convert h2 using 2 <;> ring
    have hfwd : 3 - k ≤ (runDir grid p d.1 d.2 (height grid + width grid)
        (r + d.1) (c + d.2)).length := by
      refine runDir_len_ge grid p d.1 d.2 (3 - k) _ _ _ (by omega) ?_
      intro i hi
      have hcast : ((k + 1 + i : Nat) : Int) = (k : Int) + 1 + i := by push_cast; ring
      have h2 := hk (k + 1 + i) (by omega)
      rw [hcast] at h2
      convert h2 using 2 <;> ring
    omega
/-- The direction loop of `winningLine`: either no direction qualifies
and the result is empty, or the result is the line of some qualifying
direction in the list. -/
theorem winningLineAux_spec (grid : Board) (r c : Int) (p : Cell) :
    ∀ ds : List (Int × Int),
      (winningLineAux grid r c p ds = [] ∧
        ∀ d ∈ ds, (lineDir grid r c p d).length < 4) ∨
      (∃ d ∈ ds, winningLineAux grid r c p ds = lineDir grid r c p d ∧
        4 ≤ (lineDir grid r c p d).length) := by
  intro ds
  induction ds with
  | nil => left; exact ⟨rfl, by simp⟩
  | cons d rest ih =>
    unfold winningLineAux
    dsimp only
    by_cases h4 : 4 ≤ (lineDir grid r c p d).length
    · right
      exact ⟨d, List.mem_cons_self _ _, by rw [if_pos h4], h4⟩
    · rw [if_neg h4]
      rcases ih with ⟨hnil, hall⟩ | ⟨d2, hd2, heq, hlen⟩
      · left
        refine ⟨hnil, ?_⟩
        intro d3 hd3
        rcases List.mem_cons.mp hd3 with rfl | hd3
        · omega
        · exact hall d3 hd3
      · right
        exact ⟨d2, List.mem_cons_of_mem _ hd2, heq, hlen⟩

/-- A chain stepping by a non-zero direction never revisits a cell. -/
theorem chain_step_nodup (d : Int × Int) (hd : 0 < d.1 * d.1 + d.2 * d.2)
    (L : List (Int × Int))
    (hc : L.Chain' (fun q q' => q' = (q.1 + d.1, q.2 + d.2))) : L.Nodup := by
  have hmono : L.Chain' (fun q q' =>
      q.1 * d.1 + q.2 * d.2 < q'.1 * d.1 + q'.2 * d.2) := by
    refine hc.imp ?_
    intro a b hab
    rw [hab]
    dsimp only
    have hiden : (a.1 + d.1) * d.1 + (a.2 + d.2) * d.2
        = a.1 * d.1 + a.2 * d.2 + (d.1 * d.1 + d.2 * d.2) := by ring
    rw [hiden]
    linarith
  haveI : IsTrans (Int × Int) (fun q q' =>
      q.1 * d.1 + q.2 * d.2 < q'.1 * d.1 + q'.2 * d.2) :=
    ⟨fun _ _ _ h1 h2 => lt_trans h1 h2⟩
  have hpair := (List.chain'_iff_pairwise).mp hmono
  refine hpair.imp ?_
  intro a b hab heq
  rw [heq] at hab
  exact lt_irrefl _ hab

/-! Lemmas about the highlight matrix updates of `checkResult`. -/

theorem setB_length (w : WinGrid) (q : Int × Int) : (setB w q).length = w.length := by
  unfold setB
  split
  · exact List.length_set _ _ _
  · rfl

theorem setB_row_length (w : WinGrid) (q : Int × Int) (i : Nat) :
    ((setB w q).getD i []).length = (w.getD i []).length := by
  unfold setB
  split
  · by_cases hi : i = q.1.toNat
    · subst hi
      by_cases hl : q.1.toNat < w.length
      · rw [getD_set_self _ _ _ _ hl, List.length_set]
      · rw [List.set_eq_of_length_le (by omega)]
    · rw [getD_set_ne _ _ _ _ _ (fun hx => hi hx.symm)]
  · rfl

theorem getB_setB_self (w : WinGrid) (q : Int × Int)
    (h1 : 0 ≤ q.1) (h2 : 0 ≤ q.2) (h3 : q.1.toNat < w.length)
    (h4 : q.2.toNat < (w.getD q.1.toNat []).length) :
    getB (setB w q) q = true := by
  unfold getB setB
  rw [if_pos ⟨h1, h2⟩, if_pos ⟨h1, h2⟩]
  rw [getD_set_self _ _ _ _ h3, getD_set_self _ _ _ _ h4]

theorem getB_setB_ne (w : WinGrid) (q q' : Int × Int) (h : q' ≠ q) :
    getB (setB w q) q' = getB w q' := by
  unfold getB setB
  by_cases hq : 0 ≤ q.1 ∧ 0 ≤ q.2
  · rw [if_pos hq]
    by_cases hq' : 0 ≤ q'.1 ∧ 0 ≤ q'.2
    · rw [if_pos hq', if_pos hq']
      by_cases hr : q'.1.toNat = q.1.toNat
      · have hceq : q'.1 = q.1 := by omega
        have hc : q'.2 ≠ q.2 := fun hc2 => h (Prod.ext_iff.mpr ⟨hceq, hc2⟩)
        have hcn : q'.2.toNat ≠ q.2.toNat := by omega
        rw [hr]
        by_cases hl : q.1.toNat < w.length
        · rw [getD_set_self _ _ _ _ hl, getD_set_ne _ _ _ _ _ (fun hx => hcn hx.symm)]
        · rw [List.set_eq_of_length_le (by omega)]
      · rw [getD_set_ne _ _ _ _ _ (fun hx => hr hx.symm)]
    · rw [if_neg hq', if_neg hq']
  · rw [if_neg hq]

theorem allFalse_getB (w : WinGrid) (h : AllFalse w) (q : Int × Int) :
    getB w q = false := by
  unfold getB
  split
  · by_cases h1 : q.1.toNat < w.length
    · by_cases h2 : q.2.toNat < (w.getD q.1.toNat []).length
      · exact h _ h1 _ h2
      · exact List.getD_eq_default _ _ (by omega)
    · have hrow : w.getD q.1.toNat [] = ([] : List Bool) :=
        List.getD_eq_default _ _ (by omega)
      rw [hrow]
      simp
  · rfl

/-- A fold of highlight writes marks exactly the written cells (plus
whatever was already set). -/
theorem getB_foldl_setB (L : List (Int × Int)) :
    ∀ w : WinGrid,
      (∀ q ∈ L, 0 ≤ q.1 ∧ 0 ≤ q.2 ∧ q.1.toNat < w.length ∧
        q.2.toNat < (w.getD q.1.toNat []).length) →
      ∀ q, getB (L.foldl setB w) q = true ↔ (q ∈ L ∨ getB w q = true) := by
  induction L with
  | nil => intro w _ q; simp
  | cons a t ih =>
    intro w hL q
    rw [List.foldl_cons]
    have hdims : ∀ q ∈ t, 0 ≤ q.1 ∧ 0 ≤ q.2 ∧ q.1.toNat < (setB w a).length ∧
        q.2.toNat < ((setB w a).getD q.1.toNat []).length := by
      intro q hq
      have := hL q (List.mem_cons_of_mem _ hq)
      rw [setB_length, setB_row_length]
      exact this
    rw [ih (setB w a) hdims q]
    by_cases hqa : q = a
    · subst hqa
      have ha := hL q (List.mem_cons_self _ _)
      rw [getB_setB_self w q ha.1 ha.2.1 ha.2.2.1 ha.2.2.2]
      simp
    · rw [getB_setB_ne w a q hqa]
      constructor
      · rintro (h | h)
        · exact Or.inl (List.mem_cons_of_mem _ h)
        · exact Or.inr h
      · rintro (h | h)
        · rcases List.mem_cons.mp h with rfl | h
          · exact absurd rfl hqa
          · exact Or.inl h
        · exact Or.inr h

/-- The highlight matrix written in the win branch of `checkResult`. -/
theorem checkResult_winning_of_win (g : Game) (r c : Int) (p : Cell)
    (h : 4 ≤ (winningLine g.grid r c p).length) :
    (checkResult g r c p).2.winning =
      ((winningLine g.grid r c p).take 4).foldl setB g.winning := by
  unfold checkResult
  dsimp only
  rw [if_pos h]
  split <;> rfl
/-- C6 counterexample: on `gridTwoRuns` the evaluation from the placed
cell `(2, 3)` returns the horizontal line of length 4, although the
vertical axis through the same cell carries a maximal contiguous run of
length 5 — `winningLine` returns the first qualifying axis in scan
order, not the longest run among the four axes. -/
theorem winningLine_not_longest :
    winningLine gridTwoRuns 2 3 Cell.R = [(2, 3), (2, 4), (2, 5), (2, 6)] ∧
    IsRun gridTwoRuns Cell.R (1, 0)
      [(1, 3), (2, 3), (3, 3), (4, 3), (5, 3)] ∧
    ((2 : Int), (3 : Int)) ∈
      ([(1, 3), (2, 3), (3, 3), (4, 3), (5, 3)] : List (Int × Int)) ∧
    ([(1, 3), (2, 3), (3, 3), (4, 3), (5, 3)] : List (Int × Int)).length = 5 := by
  refine ⟨by decide, ⟨?_, by decide, ?_, ?_⟩, by decide, by decide⟩
  · norm_num [List.chain'_cons, Prod.ext_iff]
  · intro q hq
    simp only [List.head?_cons, Option.some_inj] at hq
    subst hq
    decide
  · intro q hq
    rw [show ([(1, 3), (2, 3), (3, 3), (4, 3), (5, 3)] :
      List (Int × Int)).getLast? = some (5, 3) from rfl] at hq
    rw [Option.some_inj] at hq
    subst hq
    decide

/-- C6 (amended): through an in-bounds just-placed cell holding `p`,
`winningLine` returns a line of length at least 4 exactly when four
consecutive same-player cells along one of the four axes contain the
placed cell; a non-empty returned line is the full maximal contiguous
run of one of the four axes (the first qualifying axis in scan order,
not necessarily the longest), ordered from one end to the other and
containing the placed cell; `checkResult` declares the move decisive
exactly for such a win or a draw, and on a win it highlights exactly the
first four cells of the line — four distinct cells and nothing else. -/
theorem winningLine_checkResult_spec (g : Game) (r c : Int) (p : Cell)
    (hin : InB g.grid r c) (hp : cellAtI g.grid r c = p)
    (hrect : Rect g.grid) (hdims : WinDims g) (hw : AllFalse g.winning) :
    ((4 ≤ (winningLine g.grid r c p).length) ↔
      (∃ d ∈ dirs, FourThrough g.grid p r c d)) ∧
    (winningLine g.grid r c p ≠ [] →
      ∃ d ∈ dirs, IsRun g.grid p d (winningLine g.grid r c p) ∧
        (r, c) ∈ winningLine g.grid r c p ∧
        4 ≤ (winningLine g.grid r c p).length) ∧
    ((checkResult g r c p).1 = true ↔
      ((∃ d ∈ dirs, FourThrough g.grid p r c d) ∨ isDraw g.grid = true)) ∧
    (4 ≤ (winningLine g.grid r c p).length →
      ((winningLine g.grid r c p).take 4).length = 4 ∧
      ((winningLine g.grid r c p).take 4).Nodup ∧
      (∀ q : Int × Int,
        getB (checkResult g r c p).2.winning q = true ↔
          q ∈ (winningLine g.grid r c p).take 4)) := by
  have hdirs1 : ∀ d ∈ dirs, d.1 = 1 ∨ d.1 = -1 ∨ d.2 = 1 ∨ d.2 = -1 := by decide
  have hdirs2 : ∀ d ∈ dirs, 0 < d.1 * d.1 + d.2 * d.2 := by decide
  have hiff : (4 ≤ (winningLine g.grid r c p).length) ↔
      (∃ d ∈ dirs, FourThrough g.grid p r c d) := by
    unfold winningLine
    rcases winningLineAux_spec g.grid r c p dirs with ⟨hnil, hall⟩ | ⟨d, hd, heq, hlen⟩
    · rw [hnil]
      simp only [List.length_nil]
      constructor
      · omega
      · rintro ⟨d, hd, hfour⟩
        have h1 := (lineDir_four_iff g.grid r c p d (hdirs1 d hd) hin hp).mpr hfour
        have h2 := hall d hd
        omega
    · rw [heq]
      constructor
      · intro _
        exact ⟨d, hd, (lineDir_four_iff g.grid r c p d (hdirs1 d hd) hin hp).mp hlen⟩
      · intro _
        exact hlen
  have hrun4 : winningLine g.grid r c p ≠ [] →
      ∃ d ∈ dirs, IsRun g.grid p d (winningLine g.grid r c p) ∧
        (r, c) ∈ winningLine g.grid r c p ∧
        4 ≤ (winningLine g.grid r c p).length := by
    intro hne
    rcases winningLineAux_spec g.grid r c p dirs with ⟨hnil, -⟩ | ⟨d, hd, heq, hlen⟩
    · exact absurd hnil hne
    · refine ⟨d, hd, ?_, ?_, ?_⟩
      · show IsRun g.grid p d (winningLineAux g.grid r c p dirs)
        rw [heq]
        exact (lineDir_isRun g.grid r c p d (hdirs1 d hd) hin hp).1
      · show (r, c) ∈ winningLineAux g.grid r c p dirs
        rw [heq]
        exact (lineDir_isRun g.grid r c p d (hdirs1 d hd) hin hp).2
      · show 4 ≤ (winningLineAux g.grid r c p dirs).length
        rw [heq]
        exact hlen
  refine ⟨hiff, hrun4, ?_, ?_⟩
  · rw [checkResult_fst_iff]
    constructor
    · rintro (h | h)
      · exact Or.inl (hiff.mp h)
      · exact Or.inr h
    · rintro (h | h)
      · exact Or.inl (hiff.mpr h)
      · exact Or.inr h
  · intro hlen
    have hne : winningLine g.grid r c p ≠ [] := by
      intro hx
      rw [hx] at hlen
      simp at hlen
    obtain ⟨d, hd, hrun, -, -⟩ := hrun4 hne
    unfold IsRun at hrun
    have hnodup : ((winningLine g.grid r c p).take 4).Nodup :=
      List.Nodup.sublist (List.take_sublist 4 _)
        (chain_step_nodup d (hdirs2 d hd) _ hrun.1)
    have hdimsOK : ∀ q ∈ (winningLine g.grid r c p).take 4,
        0 ≤ q.1 ∧ 0 ≤ q.2 ∧ q.1.toNat < g.winning.length ∧
        q.2.toNat < (g.winning.getD q.1.toNat []).length := by
      intro q hq
      have hmem : q ∈ winningLine g.grid r c p :=
        (List.take_sublist 4 _).subset hq
      have hgood := hrun.2.1 q hmem
      unfold Good InB at hgood
      obtain ⟨⟨a1, a2, a3, a4⟩, -⟩ := hgood
      obtain ⟨hw1, hw2⟩ := hdims
      have hr1 : q.1.toNat < height g.grid := by omega
      have e1 := hw2 q.1.toNat hr1
      have e2 := hrect q.1.toNat hr1
      refine ⟨a1, a3, ?_, ?_⟩
      · omega
      · rw [e1, e2]
        omega
    refine ⟨?_, hnodup, ?_⟩
    · rw [List.length_take]
      omega
    · intro q
      rw [checkResult_winning_of_win g r c p hlen,
        getB_foldl_setB _ g.winning hdimsOK q, allFalse_getB g.winning hw q]
      simp
/-- Witness: the C6 characterisation instantiated on the vertical
four-run board `gameVert` at the placed cell `(3, 0)`: the returned
line reaches length 4 exactly when a four-window through the cell
exists on one of the axes. -/
theorem winningLine_checkResult_spec_witness :
    (4 ≤ (winningLine gameVert.grid 3 0 Cell.R).length) ↔
      (∃ d ∈ dirs, FourThrough gameVert.grid Cell.R 3 0 d) :=
  (winningLine_checkResult_spec gameVert 3 0 Cell.R (by decide) (by decide)
    (by decide) (by decide) (by decide)).1

end Power4
